import Mathlib

/-!
Verification of the PII detection-and-redaction pipeline of
`src/results/pii_detection/src/pii_redaction_agent.py`.

The Python source is shallowly embedded: Python `str` values are modelled as
`List Char` (for spliced text) or `String` (for report fields), Python `int`
as `Int`, Python `float` as `ℚ` (exact rational arithmetic models the float
formulas of the source), and fallible code returns `Except`/`Option`.
-/

namespace PiiRedaction

/-- PIIType enumeration from the source (`class PIIType(Enum)`), with the
Python member names and values reproduced by `PIIType.name` and
`PIIType.value` below. -/
inductive PIIType where
  | SSN
  | EMAIL
  | PHONE
  | ADDRESS
  | CREDIT_CARD
  | NAME
  | DATE_OF_BIRTH
  | DRIVER_LICENSE
  | PASSPORT
  | BANK_ACCOUNT
  | IP_ADDRESS
  | URL
deriving DecidableEq, Repr

/-- Python `Enum.name` for PIIType members. -/
def PIIType.name : PIIType → String
  | .SSN => "SSN"
  | .EMAIL => "EMAIL"
  | .PHONE => "PHONE"
  | .ADDRESS => "ADDRESS"
  | .CREDIT_CARD => "CREDIT_CARD"
  | .NAME => "NAME"
  | .DATE_OF_BIRTH => "DATE_OF_BIRTH"
  | .DRIVER_LICENSE => "DRIVER_LICENSE"
  | .PASSPORT => "PASSPORT"
  | .BANK_ACCOUNT => "BANK_ACCOUNT"
  | .IP_ADDRESS => "IP_ADDRESS"
  | .URL => "URL"

/-- Python `Enum.value` for PIIType members. -/
def PIIType.value : PIIType → String
  | .SSN => "Social Security Number"
  | .EMAIL => "Email Address"
  | .PHONE => "Phone Number"
  | .ADDRESS => "Physical Address"
  | .CREDIT_CARD => "Credit Card Number"
  | .NAME => "Person Name"
  | .DATE_OF_BIRTH => "Date of Birth"
  | .DRIVER_LICENSE => "Driver License"
  | .PASSPORT => "Passport Number"
  | .BANK_ACCOUNT => "Bank Account Number"
  | .IP_ADDRESS => "IP Address"
  | .URL => "URL"

/-- Python `Enum` lookup by value, `PIIType(x)` for a string `x`: returns the
member whose `value` equals `x`, or `none` (Python raises `ValueError`). -/
def piiTypeOfValue? (s : String) : Option PIIType :=
  if s = "Social Security Number" then some .SSN
  else if s = "Email Address" then some .EMAIL
  else if s = "Phone Number" then some .PHONE
  else if s = "Physical Address" then some .ADDRESS
  else if s = "Credit Card Number" then some .CREDIT_CARD
  else if s = "Person Name" then some .NAME
  else if s = "Date of Birth" then some .DATE_OF_BIRTH
  else if s = "Driver License" then some .DRIVER_LICENSE
  else if s = "Passport Number" then some .PASSPORT
  else if s = "Bank Account Number" then some .BANK_ACCOUNT
  else if s = "IP Address" then some .IP_ADDRESS
  else if s = "URL" then some .URL
  else none

/-- The `PIIEntity` dataclass of the source. `text` is a Python `str`
(modelled as `List Char`), positions are Python `int` (modelled as `Int`;
the source nowhere validates them), `confidence` a Python number (modelled
as `ℚ`). `page_number` and `bounding_box` default to `None` and are never
populated by any code path of the repository. -/
structure PIIEntity where
  text : List Char
  pii_type : PIIType
  confidence : ℚ
  start_position : Int
  end_position : Int
  page_number : Option Int := none
  bounding_box : Option (List (String × String)) := none
deriving DecidableEq, Repr

/-- One element of the `entities` list of the report dictionary built by
`generate_redaction_report`. -/
structure ReportEntry where
  text : String
  type : String
  confidence : ℚ
  position : String
deriving DecidableEq, Repr

/-- The report dictionary returned by `generate_redaction_report`. `by_type`
is a Python dict built by insertion, modelled as an association list in
insertion order. -/
structure RedactionReport where
  total_redactions : Nat
  average_confidence : ℚ
  by_type : List (String × Nat)
  entities : List ReportEntry
deriving DecidableEq, Repr

/-- Python dict update `summary[key] = summary.get(key, 0) + 1`: bump the
count of `key`, keeping insertion order, appending the key if absent. -/
def incr (summary : List (String × Nat)) (key : String) : List (String × Nat) :=
  match summary with
  | [] => [(key, 1)]
  | (k, v) :: rest => if k = key then (k, v + 1) :: rest else (k, v) :: incr rest key

/-- Floor of a rational as an integer (`Int.fdiv` floors, the denominator is
positive). -/
def ratFloor (q : ℚ) : ℤ := q.num.fdiv q.den

/-- Round a rational to the nearest integer, ties to even: the behaviour of
Python builtin `round` on the numbers of this pipeline. -/
def roundHalfEven (q : ℚ) : ℤ :=
  let f := ratFloor q
  let r := q - (f : ℚ)
  if r < 1/2 then f
  else if (1:ℚ)/2 < r then f + 1
  else if f % 2 = 0 then f else f + 1

/-- Python `round(x, 3)`. -/
def pyRound3 (q : ℚ) : ℚ := (roundHalfEven (q * 1000) : ℚ) / 1000

/-- Per-entity listing entry built inside `generate_redaction_report`: the
`text` field is always the fixed string `"***REDACTED***"`; only category,
confidence and the position range `f"{start}-{end}"` are carried over. -/
def reportEntryOf (e : PIIEntity) : ReportEntry :=
  { text := "***REDACTED***"
    type := e.pii_type.value
    confidence := e.confidence
    position := toString e.start_position ++ "-" ++ toString e.end_position }

/-- `PIIRedactionAgent.generate_redaction_report` (source lines 295-320):
count entities by `pii_type.value`, compute the mean confidence (0 when the
list is empty) rounded to three decimals with `round(_, 3)`, and list the
entities with masked text. -/
def generate_redaction_report (pii_entities : List PIIEntity) : RedactionReport :=
  let summary := pii_entities.foldl (fun acc e => incr acc e.pii_type.value) []
  let total_redactions := pii_entities.length
  let avg_confidence : ℚ :=
    if total_redactions > 0 then
      (pii_entities.map (fun e => e.confidence)).sum / (total_redactions : ℚ)
    else 0
  { total_redactions := total_redactions
    average_confidence := pyRound3 avg_confidence
    by_type := summary
    entities := pii_entities.map reportEntryOf }

/-- Sum of the per-category counts of a `by_type` association list. -/
def countsSum (l : List (String × Nat)) : Nat := (l.map Prod.snd).sum

/-- Replace the `text` field of an entity by the empty string, keeping every
other field: two entity lists with the same image under this map agree on
everything except the raw PII text. -/
def eraseText (e : PIIEntity) : PIIEntity := { e with text := [] }

/-- Proximity test of the deduplication loop in
`PIIRedactionAgent.process_document` (source lines 354-355):
`abs(entity.start_position - existing.start_position) < 5 and
abs(entity.end_position - existing.end_position) < 5`. -/
def closeTo (entity existing : PIIEntity) : Bool :=
  decide ((entity.start_position - existing.start_position).natAbs < 5) &&
  decide ((entity.end_position - existing.end_position).natAbs < 5)

/-- The deduplication loop of `process_document` (source lines 350-359):
walk the concatenated entity list in order, appending a candidate to
`unique_entities` unless it is within the proximity threshold of an
already-accepted entity. -/
def dedupGo (unique_entities : List PIIEntity) : List PIIEntity → List PIIEntity
  | [] => unique_entities
  | entity :: rest =>
    if unique_entities.any (fun existing => closeTo entity existing) then
      dedupGo unique_entities rest
    else
      dedupGo (unique_entities ++ [entity]) rest

/-- Entity merger deduplication: `unique_entities` computed from
`all_entities` in `process_document`. -/
def dedupEntities (all_entities : List PIIEntity) : List PIIEntity :=
  dedupGo [] all_entities

/-- Deduplication written from the words of the spec: a candidate is
discarded exactly when some already-accepted entity has both start offsets
and end offsets within absolute difference 5, first-seen wins. -/
def dedupSpecGo (accepted : List PIIEntity) : List PIIEntity → List PIIEntity
  | [] => accepted
  | entity :: rest =>
    if ∃ existing ∈ accepted,
        (entity.start_position - existing.start_position).natAbs < 5 ∧
        (entity.end_position - existing.end_position).natAbs < 5 then
      dedupSpecGo accepted rest
    else
      dedupSpecGo (accepted ++ [entity]) rest

/-- Two entities differ by at least 5 in start offset or at least 5 in end
offset: the negation of the merger's proximity test. -/
def NotNear (a b : PIIEntity) : Prop :=
  5 ≤ (a.start_position - b.start_position).natAbs ∨
  5 ≤ (a.end_position - b.end_position).natAbs

/-- Effective bound of a Python slice index on a sequence of length `n`: a
negative index counts from the end (clamped at 0 by `Int.toNat`), a
too-large index is clamped by `List.take`/`List.drop` themselves. -/
def pyBound (n : Nat) (i : Int) : Nat :=
  if i < 0 then ((n : Int) + i).toNat else i.toNat

/-- Python `text[:i]`. -/
def pyTake (l : List Char) (i : Int) : List Char := l.take (pyBound l.length i)

/-- Python `text[i:]`. -/
def pyDrop (l : List Char) (i : Int) : List Char := l.drop (pyBound l.length i)

/-- Redaction placeholder `f"[REDACTED-{entity.pii_type.name}]"` built in
`create_redacted_text`. -/
def redactionTag (t : PIIType) : List Char :=
  ("[REDACTED-" ++ t.name ++ "]").toList

/-- One iteration of the splice loop of `create_redacted_text` (source lines
282-291): `redacted_text[:start] + redaction + redacted_text[end:]`. -/
def redactOne (redacted_text : List Char) (entity : PIIEntity) : List Char :=
  pyTake redacted_text entity.start_position ++ redactionTag entity.pii_type ++
    pyDrop redacted_text entity.end_position

/-- Stable insertion into a list already sorted by descending start offset;
on ties the earlier (original-order) element stays first. -/
def insertDesc (e : PIIEntity) : List PIIEntity → List PIIEntity
  | [] => [e]
  | x :: xs =>
    if x.start_position ≤ e.start_position then e :: x :: xs
    else x :: insertDesc e xs

/-- Python `sorted(pii_entities, key=lambda x: x.start_position,
reverse=True)`: the stable sort by descending start offset (stable sorts
with the same ordering agree, so insertion sort models Python's sort). -/
def sortByStartDesc : List PIIEntity → List PIIEntity
  | [] => []
  | e :: es => insertDesc e (sortByStartDesc es)

/-- `PIIRedactionAgent.create_redacted_text` (source lines 275-293): sort
the entities by start offset in reverse order, then splice each span out of
the accumulated text. -/
def create_redacted_text (original_text : List Char)
    (pii_entities : List PIIEntity) : List Char :=
  (sortByStartDesc pii_entities).foldl redactOne original_text

/-- Reference rendering written from the words of the claim: walk entities
in ascending span order from position `pos`, emitting the untouched
characters of the original text between consecutive spans and a placeholder
for each span. -/
def spliceSpec (txt : List Char) (pos : Nat) : List PIIEntity → List Char
  | [] => txt.drop pos
  | e :: rest =>
    (txt.drop pos).take (e.start_position.toNat - pos) ++
      redactionTag e.pii_type ++ spliceSpec txt e.end_position.toNat rest

/-- Valid half-open span within a text. -/
def ValidFor (txt : List Char) (e : PIIEntity) : Prop :=
  0 ≤ e.start_position ∧ e.start_position < e.end_position ∧
    e.end_position ≤ (txt.length : Int)

instance (txt : List Char) (e : PIIEntity) : Decidable (ValidFor txt e) := by
  unfold ValidFor
  infer_instance

/-- Non-overlap of the half-open spans of two entities. -/
def SpanDisjoint (a b : PIIEntity) : Prop :=
  a.end_position ≤ b.start_position ∨ b.end_position ≤ a.start_position

instance (a b : PIIEntity) : Decidable (SpanDisjoint a b) := by
  unfold SpanDisjoint
  infer_instance

/-- Descending order on start offsets, the sort key of the redactor. -/
def StartGE (a b : PIIEntity) : Prop := b.start_position ≤ a.start_position

/-- Ascending chain of valid spans: starting at `pos`, each entity begins at
or after the current position and ends before the next one starts, with the
final position bounded by `ub`. -/
def ChainOK (ub : Nat) : Nat → List PIIEntity → Prop
  | pos, [] => pos ≤ ub
  | pos, a :: rest =>
      pos ≤ a.start_position.toNat ∧ 0 ≤ a.start_position ∧
      a.start_position < a.end_position ∧ ChainOK ub a.end_position.toNat rest

/-- JSON values as produced by Python `json.loads`. -/
inductive JsonValue where
  | null
  | bool (b : Bool)
  | num (q : ℚ)
  | str (s : String)
  | arr (elems : List JsonValue)
  | obj (fields : List (String × JsonValue))

/-- Python dict lookup `item[key]` on a parsed JSON object: `json.loads`
builds a dict, so a later duplicate key overrides an earlier one. -/
def jsonGet (fields : List (String × JsonValue)) (key : String) :
    Option JsonValue :=
  fields.foldl (fun acc kv => if kv.1 = key then some kv.2 else acc) none

/-- Python `sep in s` for a non-empty separator: `s.split(sep)` has more
than one piece exactly when `sep` occurs in `s`. -/
def pyContains (s sep : String) : Bool := (s.splitOn sep).length != 1

/-- Code-fence stripping of `detect_pii_with_ai` (source lines 217-220):
`ai_content.split("```json")[1].split("```")[0]` when a json fence is
present, else the same with plain "```", else the content unchanged. -/
def stripFences (ai_content : String) : String :=
  if pyContains ai_content "```json" then
    (((ai_content.splitOn "```json").getD 1 "").splitOn "```").headD ""
  else if pyContains ai_content "```" then
    (((ai_content.splitOn "```").getD 1 "").splitOn "```").headD ""
  else ai_content

/-- Python `PIIType(value)` applied to a parsed JSON value: a string is
looked up among the enum values (no match raises `ValueError`, which the
loop catches); other hashable values also raise `ValueError`; unhashable
lists and dicts raise `TypeError`, which is not caught. -/
def asEnumKey : JsonValue → Except String (Option PIIType)
  | .str s => .ok (piiTypeOfValue? s)
  | .null => .ok none
  | .bool _ => .ok none
  | .num _ => .ok none
  | .arr _ => .error "TypeError: unhashable type"
  | .obj _ => .error "TypeError: unhashable type"

/-- Lookup `item[key]` expecting a string field. A missing key raises
`KeyError` in Python; a wrong-typed value is modelled as an error here (in
Python it would be stored unchecked and only misbehave downstream, a path no
claim exercises). -/
def getStrField (fields : List (String × JsonValue)) (key : String) :
    Except String String :=
  match jsonGet fields key with
  | none => .error ("KeyError: " ++ key)
  | some (.str s) => .ok s
  | some _ => .error ("TypeError: " ++ key)

/-- Lookup `item[key]` expecting a number; same modelling note as
`getStrField`. -/
def getNumField (fields : List (String × JsonValue)) (key : String) :
    Except String ℚ :=
  match jsonGet fields key with
  | none => .error ("KeyError: " ++ key)
  | some (.num q) => .ok q
  | some _ => .error ("TypeError: " ++ key)

/-- Lookup `item[key]` expecting a JSON integer; same modelling note as
`getStrField`. -/
def getIntField (fields : List (String × JsonValue)) (key : String) :
    Except String Int :=
  match jsonGet fields key with
  | none => .error ("KeyError: " ++ key)
  | some (.num q) => if q.den = 1 then .ok q.num else .error ("TypeError: " ++ key)
  | some _ => .error ("TypeError: " ++ key)

/-- Body of the `for item in pii_data` loop of `detect_pii_with_ai`
(source lines 226-240): `PIIType(item["pii_type"])` is evaluated first and
`ValueError` is caught by skipping the item (`.ok none`); field accesses
then build the entity, with positions copied verbatim and unvalidated. -/
def entityOfItem (item : JsonValue) : Except String (Option PIIEntity) :=
  match item with
  | .obj fields =>
    match jsonGet fields "pii_type" with
    | none => .error "KeyError: pii_type"
    | some pv =>
      match asEnumKey pv with
      | .error msg => .error msg
      | .ok none => .ok none
      | .ok (some t) => do
        let ts ← getStrField fields "text"
        let c ← getNumField fields "confidence"
        let sp ← getIntField fields "start_position"
        let ep ← getIntField fields "end_position"
        pure (some { text := ts.toList, pii_type := t, confidence := c,
                     start_position := sp, end_position := ep })
  | _ => .error "TypeError: item is not a dict"

/-- The whole item loop of `detect_pii_with_ai`, appending each converted
entity in order and propagating uncaught exceptions. -/
def entityItemsGo : List JsonValue → Except String (List PIIEntity)
  | [] => .ok []
  | item :: rest =>
    match entityOfItem item with
    | .error msg => .error msg
    | .ok none => entityItemsGo rest
    | .ok (some ent) => (entityItemsGo rest).map (fun es => ent :: es)

/-- Conversion of the parsed response value: iteration requires a JSON
array (a non-list parse is modelled as the `TypeError` Python would raise
on the first item access). -/
def entitiesOfJson : JsonValue → Except String (List PIIEntity)
  | .arr items => entityItemsGo items
  | _ => .error "TypeError: response is not a list"

/-- Response-processing tail of `detect_pii_with_ai` (source lines
214-248), parameterised by the behaviour of the external stdlib
`json.loads`: a parse failure (`none`) is the caught `json.JSONDecodeError`
branch and returns the empty entity list; a successful parse is converted
by the item loop. -/
def detect_pii_from_content (jsonLoads : String → Option JsonValue)
    (ai_content : String) : Except String (List PIIEntity) :=
  match jsonLoads (stripFences ai_content) with
  | none => .ok []
  | some v => entitiesOfJson v

/-- Shape of a well-formed response item: a dict with string `pii_type` and
`text`, numeric `confidence`, and integer positions. -/
def itemShape? (item : JsonValue) : Option (String × String × ℚ × Int × Int) :=
  match item with
  | .obj fields =>
    match jsonGet fields "pii_type", (getStrField fields "text").toOption,
        (getNumField fields "confidence").toOption,
        (getIntField fields "start_position").toOption,
        (getIntField fields "end_position").toOption with
    | some (.str p), some ts, some c, some sp, some ep => some (p, ts, c, sp, ep)
    | _, _, _, _, _ => none
  | _ => none

/-- Entity a well-formed item should yield, written from the words of the
spec: an item with a known `pii_type` converts to an entity, an unknown one
is dropped. -/
def specEntityOfShape (x : String × String × ℚ × Int × Int) : Option PIIEntity :=
  (piiTypeOfValue? x.1).map fun t =>
    { text := x.2.1.toList, pii_type := t, confidence := x.2.2.1,
      start_position := x.2.2.2.1, end_position := x.2.2.2.2 }

/-- ASCII digit, the `\d` and `[0-9]` classes on this repository's ASCII
inputs. -/
def isDigitChar (c : Char) : Bool := decide ('0' ≤ c) && decide (c ≤ '9')

/-- ASCII letter. -/
def isAsciiLetter (c : Char) : Bool :=
  (decide ('A' ≤ c) && decide (c ≤ 'Z')) || (decide ('a' ≤ c) && decide (c ≤ 'z'))

/-- Python regex word character `\w` (ASCII range). -/
def isWordChar (c : Char) : Bool := isAsciiLetter c || isDigitChar c || c == '_'

/-- Python regex whitespace `\s` (ASCII range). -/
def isSpaceChar (c : Char) : Bool :=
  c == ' ' || c == '\t' || c == '\n' || c == '\r' || c == '\x0b' || c == '\x0c'

/-- Fragment of Python regular expressions covering the five patterns of
`apply_regex_patterns`: character classes, concatenation, prioritised
alternation (left alternative first), greedy star and the zero-width word
boundary `\b`. -/
inductive Regex where
  | eps
  | cls (p : Char → Bool)
  | cat (a b : Regex)
  | alt (a b : Regex)
  | star (r : Regex)
  | wordB

/-- Literal character. -/
def chr (c : Char) : Regex := .cls (fun x => x == c)

/-- Greedy `r?`. -/
def opt (r : Regex) : Regex := .alt r .eps

/-- Exactly `n` copies, `r{n}`. -/
def repN : Nat → Regex → Regex
  | 0, _ => .eps
  | n + 1, r => .cat r (repN n r)

/-- Greedy `r+`. -/
def rplus (r : Regex) : Regex := .cat r (.star r)

/-- Greedy `r{n,}`. -/
def atLeast (n : Nat) (r : Regex) : Regex := .cat (repN n r) (.star r)

/-- Greedy `r{0,n}`. -/
def upTo : Nat → Regex → Regex
  | 0, _ => .eps
  | n + 1, r => .alt (.cat r (upTo n r)) .eps

/-- Greedy `r{lo,hi}`. -/
def between (lo hi : Nat) (r : Regex) : Regex :=
  .cat (repN lo r) (upTo (hi - lo) r)

/-- Word-boundary test at position `i` of `s`; positions outside the text
count as non-word. -/
def wordBoundaryAt (s : List Char) (i : Nat) : Bool :=
  (if i = 0 then false else
    match s.get? (i - 1) with
    | some c => isWordChar c
    | none => false) !=
  (match s.get? i with
   | some c => isWordChar c
   | none => false)

/-- Candidate end positions of a match of `r` at position `i` of `s`, in
the priority order of Python's backtracking engine (greedy, left
alternative first); `star1` supplies the semantics of `star` nodes. -/
def matchesGo (s : List Char) (star1 : Regex → Nat → List Nat) :
    Regex → Nat → List Nat
  | .eps, i => [i]
  | .cls p, i =>
    match s.get? i with
    | some c => if p c then [i + 1] else []
    | none => []
  | .wordB, i => if wordBoundaryAt s i then [i] else []
  | .cat a b, i =>
    (matchesGo s star1 a i).flatMap (fun j => matchesGo s star1 b j)
  | .alt a b, i => matchesGo s star1 a i ++ matchesGo s star1 b i
  | .star r, i => star1 r i

/-- Candidate end positions of `star r` at position `i`: greedily take one
more (necessarily consuming) body iteration first, ending with the empty
iteration; `fuel` bounds the unfolding depth and exceeds any reachable
depth when it exceeds the text length. -/
def starMatches (s : List Char) : Nat → Regex → Nat → List Nat
  | 0, _, _ => []
  | fuel + 1, r, i =>
    ((matchesGo s (fun r2 i2 => starMatches s fuel r2 i2) r i).filter
        (fun j => j != i)).flatMap (fun j => starMatches s fuel r j) ++ [i]

/-- Backtracking match candidates with the star-unfolding budget `fuel`. -/
def matches1 (s : List Char) (fuel : Nat) (r : Regex) (i : Nat) : List Nat :=
  matchesGo s (fun r2 i2 => starMatches s fuel r2 i2) r i

/-- Python `re` match attempt at position `i`: the first success of the
backtracking engine, if any. -/
def matchEnd (s : List Char) (r : Regex) (i : Nat) : Option Nat :=
  (matches1 s (s.length + 1) r i).head?

/-- Character class `[A-Za-z0-9._%+-]` (email local part). -/
def emailLocalChar (c : Char) : Bool :=
  isAsciiLetter c || isDigitChar c || c == '.' || c == '_' || c == '%' ||
    c == '+' || c == '-'

/-- Character class `[A-Za-z0-9.-]` (email domain). -/
def emailDomainChar (c : Char) : Bool :=
  isAsciiLetter c || isDigitChar c || c == '.' || c == '-'

/-- Character class `[A-Z|a-z]`: the literal bar is part of the class in
the source pattern. -/
def tldChar (c : Char) : Bool := isAsciiLetter c || c == '|'

/-- Character class `[-.\s]` (phone separators). -/
def sepChar (c : Char) : Bool := c == '-' || c == '.' || isSpaceChar c

/-- Character class `[-\s]` (credit-card separators). -/
def dashSpaceChar (c : Char) : Bool := c == '-' || isSpaceChar c

/-- Pattern `\b\d{3}-?\d{2}-?\d{4}\b` (SSN). The `re.IGNORECASE` flag of
the source is immaterial for all five patterns: every letter class is
closed under case. -/
def ssnRegex : Regex :=
  .cat .wordB (.cat (repN 3 (.cls isDigitChar)) (.cat (opt (chr '-'))
    (.cat (repN 2 (.cls isDigitChar)) (.cat (opt (chr '-'))
      (.cat (repN 4 (.cls isDigitChar)) .wordB)))))

/-- Pattern `\b[A-Za-z0-9._%+-]+@[A-Za-z0-9.-]+\.[A-Z|a-z]{2,}\b`
(email). -/
def emailRegex : Regex :=
  .cat .wordB (.cat (rplus (.cls emailLocalChar)) (.cat (chr '@')
    (.cat (rplus (.cls emailDomainChar)) (.cat (chr '.')
      (.cat (atLeast 2 (.cls tldChar)) .wordB)))))

/-- Pattern `\b(?:\+?1[-.\s]?)?\(?[0-9]{3}\)?[-.\s]?[0-9]{3}[-.\s]?[0-9]{4}\b`
(phone). -/
def phoneRegex : Regex :=
  .cat .wordB (.cat (opt (.cat (opt (chr '+')) (.cat (chr '1')
      (opt (.cls sepChar)))))
    (.cat (opt (chr '(')) (.cat (repN 3 (.cls isDigitChar))
      (.cat (opt (chr ')')) (.cat (opt (.cls sepChar))
        (.cat (repN 3 (.cls isDigitChar)) (.cat (opt (.cls sepChar))
          (.cat (repN 4 (.cls isDigitChar)) .wordB))))))))

/-- Pattern `\b(?:\d{4}[-\s]?){3}\d{4}\b` (credit card). -/
def creditCardRegex : Regex :=
  .cat .wordB (.cat (repN 3 (.cat (repN 4 (.cls isDigitChar))
      (opt (.cls dashSpaceChar))))
    (.cat (repN 4 (.cls isDigitChar)) .wordB))

/-- Pattern `\b(?:[0-9]{1,3}\.){3}[0-9]{1,3}\b` (IP address). -/
def ipRegex : Regex :=
  .cat .wordB (.cat (repN 3 (.cat (between 1 3 (.cls isDigitChar)) (chr '.')))
    (.cat (between 1 3 (.cls isDigitChar)) .wordB))

/-- Python `re.finditer` scan: try a match at every position left to
right, emit non-overlapping matches, resume after each match (one position
further after an empty match). -/
def findIterGo (s : List Char) (r : Regex) : Nat → Nat → List (Nat × Nat)
  | 0, _ => []
  | fuel + 1, pos =>
    if s.length < pos then []
    else
      match matchEnd s r pos with
      | some j => (pos, j) :: findIterGo s r fuel (if j = pos then pos + 1 else j)
      | none => findIterGo s r fuel (pos + 1)

/-- All matches of `r` in `s`, as `re.finditer` yields them. -/
def findIter (s : List Char) (r : Regex) : List (Nat × Nat) :=
  findIterGo s r (s.length + 1) 0

/-- Entities produced for one pattern inside `apply_regex_patterns`
(source lines 260-271): one entity per match, text `match.group()`,
confidence 0.8 (the rational 4/5), offsets `match.start()` and
`match.end()`. -/
def patternFor (text : List Char) (t : PIIType) (r : Regex) : List PIIEntity :=
  (findIter text r).map fun m =>
    { text := (text.drop m.1).take (m.2 - m.1)
      pii_type := t
      confidence := 4/5
      start_position := (m.1 : Int)
      end_position := (m.2 : Int) }

/-- `PIIRedactionAgent.apply_regex_patterns` (source lines 250-273): the
five patterns applied in dict insertion order, concatenating their
matches. -/
def apply_regex_patterns (text : List Char) : List PIIEntity :=
  patternFor text .SSN ssnRegex ++ patternFor text .EMAIL emailRegex ++
    patternFor text .PHONE phoneRegex ++
    patternFor text .CREDIT_CARD creditCardRegex ++
    patternFor text .IP_ADDRESS ipRegex

/-- Syntactic criterion: every successful match of the regex consumes at
least one character. -/
def consumes : Regex → Bool
  | .eps => false
  | .cls _ => true
  | .wordB => false
  | .cat a b => consumes a || consumes b
  | .alt a b => consumes a && consumes b
  | .star _ => false

lemma countsSum_incr (l : List (String × Nat)) (k : String) :
    countsSum (incr l k) = countsSum l + 1 := by
  induction l with
  | nil => simp [incr, countsSum]
  | cons p rest ih =>
    obtain ⟨k', v⟩ := p
    by_cases h : k' = k
    · simp [incr, h, countsSum]
      ring
    · simp [incr, h, countsSum] at ih ⊢
      omega

lemma countsSum_foldl_incr (keys : List String) (acc : List (String × Nat)) :
    countsSum (keys.foldl incr acc) = countsSum acc + keys.length := by
  induction keys generalizing acc with
  | nil => simp
  | cons k rest ih =>
    simp only [List.foldl_cons, ih, countsSum_incr, List.length_cons]
    omega

/-- C4: for every entity sequence, the report's `total_redactions` equals the
length of the input sequence, and the `by_type` counts sum to
`total_redactions`. -/
theorem report_totals_consistent (pii_entities : List PIIEntity) :
    (generate_redaction_report pii_entities).total_redactions = pii_entities.length ∧
    countsSum (generate_redaction_report pii_entities).by_type =
      (generate_redaction_report pii_entities).total_redactions := by
  refine ⟨rfl, ?_⟩
  show countsSum (pii_entities.foldl (fun acc e => incr acc e.pii_type.value) []) = _
  have h := countsSum_foldl_incr (pii_entities.map (fun e => e.pii_type.value)) []
  rw [List.foldl_map] at h
  simpa [countsSum] using h

/-- Witness for C4 at a concrete two-entity input. -/
theorem report_totals_consistent_w :
    (generate_redaction_report
        [⟨"a".toList, .SSN, 9/10, 0, 1, none, none⟩,
         ⟨"b".toList, .SSN, 1/2, 2, 3, none, none⟩]).total_redactions = 2 ∧
    countsSum (generate_redaction_report
        [⟨"a".toList, .SSN, 9/10, 0, 1, none, none⟩,
         ⟨"b".toList, .SSN, 1/2, 2, 3, none, none⟩]).by_type = 2 := by
  have h := report_totals_consistent
    [⟨"a".toList, .SSN, 9/10, 0, 1, none, none⟩,
     ⟨"b".toList, .SSN, 1/2, 2, 3, none, none⟩]
  exact ⟨h.1.trans (by decide), h.2.trans (h.1.trans (by decide))⟩

/-- C5: for a non-empty entity sequence, `average_confidence` is the
arithmetic mean of the confidences rounded to three decimals; for the empty
sequence it is exactly 0. -/
theorem report_average_confidence (pii_entities : List PIIEntity)
    (h : pii_entities ≠ []) :
    (generate_redaction_report pii_entities).average_confidence =
      pyRound3 ((pii_entities.map (fun e => e.confidence)).sum /
        (pii_entities.length : ℚ)) ∧
    (generate_redaction_report []).average_confidence = 0 := by
  constructor
  · have hlen : pii_entities.length > 0 := List.length_pos.mpr h
    simp only [generate_redaction_report, if_pos hlen]
  · show pyRound3 (if (0:Nat) > 0 then _ else 0) = 0
    norm_num [pyRound3, roundHalfEven, ratFloor]

/-- Witness for C5 at a concrete one-entity input. -/
theorem report_average_confidence_w :
    ([⟨"a".toList, PIIType.SSN, 9/10, 0, 1, none, none⟩] : List PIIEntity) ≠ [] ∧
    (generate_redaction_report
        [⟨"a".toList, .SSN, 9/10, 0, 1, none, none⟩]).average_confidence =
      pyRound3 ((([⟨"a".toList, .SSN, 9/10, 0, 1, none, none⟩] :
          List PIIEntity).map (fun e => e.confidence)).sum /
        (([⟨"a".toList, .SSN, 9/10, 0, 1, none, none⟩] :
          List PIIEntity).length : ℚ)) := by
  refine ⟨by decide, ?_⟩
  exact (report_average_confidence _ (by decide)).1

lemma map_eraseText_proj (es es' : List PIIEntity)
    (h : es.map eraseText = es'.map eraseText)
    {α : Type} (f : PIIEntity → α) (hf : ∀ e, f (eraseText e) = f e) :
    es.map f = es'.map f := by
  have hfe : f ∘ eraseText = f := funext hf
  have h1 : (es.map eraseText).map f = (es'.map eraseText).map f := by rw [h]
  simpa [List.map_map, hfe] using h1

/-- C1: the redaction report is a function of the entities with their raw
text erased, so it is unchanged when the `text` field of any input entity is
replaced by any other string; moreover every per-entity listing carries the
fixed marker `"***REDACTED***"`. -/
theorem report_never_contains_pii (es es' : List PIIEntity)
    (h : es.map eraseText = es'.map eraseText) :
    generate_redaction_report es = generate_redaction_report es' ∧
    ∀ entry ∈ (generate_redaction_report es).entities,
      entry.text = "***REDACTED***" := by
  have hlen : es.length = es'.length := by
    have := congrArg List.length h
    simpa using this
  have hkey : es.map (fun e => e.pii_type.value) = es'.map (fun e => e.pii_type.value) :=
    map_eraseText_proj es es' h _ (fun e => rfl)
  have hconf : es.map (fun e => e.confidence) = es'.map (fun e => e.confidence) :=
    map_eraseText_proj es es' h _ (fun e => rfl)
  have hentry : es.map reportEntryOf = es'.map reportEntryOf :=
    map_eraseText_proj es es' h _ (fun e => rfl)
  constructor
  · show RedactionReport.mk _ _ _ _ = RedactionReport.mk _ _ _ _
    have hsum : es.foldl (fun acc e => incr acc e.pii_type.value) [] =
        es'.foldl (fun acc e => incr acc e.pii_type.value) [] := by
      rw [← List.foldl_map (fun e : PIIEntity => e.pii_type.value) incr,
        ← List.foldl_map (fun e : PIIEntity => e.pii_type.value) incr, hkey]
    rw [hlen, hconf, hsum, hentry]
  · intro entry hmem
    simp only [generate_redaction_report, List.mem_map] at hmem
    obtain ⟨e, _, rfl⟩ := hmem
    rfl

/-- Witness for C1: two singleton inputs differing only in raw text. -/
theorem report_never_contains_pii_w :
    ([⟨"555-12-3456".toList, PIIType.SSN, 9/10, 4, 15, none, none⟩] :
        List PIIEntity).map eraseText =
      ([⟨"other".toList, PIIType.SSN, 9/10, 4, 15, none, none⟩] :
        List PIIEntity).map eraseText ∧
    generate_redaction_report
        [⟨"555-12-3456".toList, .SSN, 9/10, 4, 15, none, none⟩] =
      generate_redaction_report
        [⟨"other".toList, .SSN, 9/10, 4, 15, none, none⟩] := by
  refine ⟨rfl, ?_⟩
  exact (report_never_contains_pii _ _ rfl).1

lemma dedupGo_eq_spec (l acc : List PIIEntity) :
    dedupGo acc l = dedupSpecGo acc l := by
  induction l generalizing acc with
  | nil => rfl
  | cons e rest ih =>
    show (if acc.any (fun ex => closeTo e ex) then dedupGo acc rest
          else dedupGo (acc ++ [e]) rest) = _
    have hiff : (acc.any (fun ex => closeTo e ex) = true) ↔
        (∃ existing ∈ acc,
          (e.start_position - existing.start_position).natAbs < 5 ∧
          (e.end_position - existing.end_position).natAbs < 5) := by
      simp [List.any_eq_true, closeTo]
    by_cases h : acc.any (fun ex => closeTo e ex) = true
    · rw [if_pos h, dedupSpecGo, if_pos (hiff.mp h), ih]
    · rw [if_neg h, dedupSpecGo, if_neg (fun hex => h (hiff.mpr hex)), ih]

/-- C3: the merger discards a candidate exactly when an already-accepted
entity is within 5 of it in both start and end offset (first-seen wins);
entities at offsets 10-20 and 12-22 collapse to the first, entities at
offsets 10-20 and 30-40 both survive. -/
theorem dedup_first_seen_wins :
    (∀ all_entities, dedupEntities all_entities = dedupSpecGo [] all_entities) ∧
    (∀ a b c : PIIEntity,
      a.start_position = 10 → a.end_position = 20 →
      b.start_position = 12 → b.end_position = 22 →
      c.start_position = 30 → c.end_position = 40 →
      dedupEntities [a, b] = [a] ∧ dedupEntities [a, c] = [a, c]) := by
  refine ⟨fun all => dedupGo_eq_spec all [], ?_⟩
  intro a b c has hae hbs hbe hcs hce
  constructor
  · simp [dedupEntities, dedupGo, closeTo, has, hae, hbs, hbe]
  · simp [dedupEntities, dedupGo, closeTo, has, hae, hcs, hce]

/-- Witness for C3 at the concrete offset pairs named by the claim. -/
theorem dedup_first_seen_wins_w :
    dedupEntities
        [⟨"a".toList, .NAME, 1, 10, 20, none, none⟩,
         ⟨"b".toList, .NAME, 1, 12, 22, none, none⟩] =
      [⟨"a".toList, .NAME, 1, 10, 20, none, none⟩] ∧
    dedupEntities
        [⟨"a".toList, .NAME, 1, 10, 20, none, none⟩,
         ⟨"c".toList, .NAME, 1, 30, 40, none, none⟩] =
      [⟨"a".toList, .NAME, 1, 10, 20, none, none⟩,
       ⟨"c".toList, .NAME, 1, 30, 40, none, none⟩] :=
  dedup_first_seen_wins.2 _ _ _ rfl rfl rfl rfl rfl rfl

lemma notNear_symm {a b : PIIEntity} (h : NotNear a b) : NotNear b a := by
  unfold NotNear at h ⊢
  omega

lemma closeTo_false_iff (e a : PIIEntity) : closeTo e a = false ↔ NotNear e a := by
  simp only [closeTo, NotNear, Bool.and_eq_false_iff, decide_eq_false_iff_not, not_lt]

lemma dedupGo_pairwise (l acc : List PIIEntity) (h : acc.Pairwise NotNear) :
    (dedupGo acc l).Pairwise NotNear := by
  induction l generalizing acc with
  | nil => exact h
  | cons e rest ih =>
    show (if acc.any (fun existing => closeTo e existing) then dedupGo acc rest
          else dedupGo (acc ++ [e]) rest).Pairwise NotNear
    by_cases hd : acc.any (fun existing => closeTo e existing) = true
    · rw [if_pos hd]
      exact ih acc h
    · rw [if_neg hd]
      refine ih (acc ++ [e]) ?_
      rw [List.pairwise_append]
      refine ⟨h, List.pairwise_singleton _ _, ?_⟩
      intro a ha b hb
      rw [List.mem_singleton] at hb
      subst hb
      have hfalse : closeTo b a = false := by
        rw [List.any_eq_true] at hd
        push_neg at hd
        simpa using hd a ha
      exact notNear_symm ((closeTo_false_iff b a).mp hfalse)

lemma dedupGo_of_pairwise (l acc : List PIIEntity)
    (hacc : ∀ a ∈ acc, ∀ b ∈ l, NotNear b a) (hl : l.Pairwise NotNear) :
    dedupGo acc l = acc ++ l := by
  induction l generalizing acc with
  | nil => simp [dedupGo]
  | cons e rest ih =>
    show (if acc.any (fun existing => closeTo e existing) then dedupGo acc rest
          else dedupGo (acc ++ [e]) rest) = _
    have hany : acc.any (fun existing => closeTo e existing) = false := by
      rw [List.any_eq_false]
      intro a ha
      simpa using (closeTo_false_iff e a).mpr (hacc a ha e (List.mem_cons_self e rest))
    rw [if_neg (by simp [hany])]
    rw [List.pairwise_cons] at hl
    have := ih (acc ++ [e]) ?_ hl.2
    · rw [this, List.append_assoc, List.singleton_append]
    · intro a ha b hb
      rcases List.mem_append.mp ha with hA | hE
      · exact hacc a hA b (List.mem_cons_of_mem e hb)
      · rw [List.mem_singleton] at hE
        subst hE
        exact notNear_symm (hl.1 b hb)

/-- C10: every two entities in the merger's output differ by at least 5 in
start offset or at least 5 in end offset, so the deduplication filter maps
its own output to itself. -/
theorem dedup_idempotent (all_entities : List PIIEntity) :
    (dedupEntities all_entities).Pairwise NotNear ∧
    dedupEntities (dedupEntities all_entities) = dedupEntities all_entities := by
  have h1 : (dedupEntities all_entities).Pairwise NotNear :=
    dedupGo_pairwise all_entities [] List.Pairwise.nil
  refine ⟨h1, ?_⟩
  have h2 := dedupGo_of_pairwise (dedupEntities all_entities) []
    (by intro a ha; simp at ha) h1
  simpa [dedupEntities] using h2

/-- Witness for C10 at a concrete input containing a near-duplicate. -/
theorem dedup_idempotent_w :
    (dedupEntities
        [⟨"a".toList, .NAME, 1, 10, 20, none, none⟩,
         ⟨"b".toList, .NAME, 1, 12, 22, none, none⟩]).Pairwise NotNear ∧
    dedupEntities (dedupEntities
        [⟨"a".toList, .NAME, 1, 10, 20, none, none⟩,
         ⟨"b".toList, .NAME, 1, 12, 22, none, none⟩]) =
      dedupEntities
        [⟨"a".toList, .NAME, 1, 10, 20, none, none⟩,
         ⟨"b".toList, .NAME, 1, 12, 22, none, none⟩] :=
  dedup_idempotent _


lemma insertDesc_perm (e : PIIEntity) (l : List PIIEntity) :
    (insertDesc e l).Perm (e :: l) := by
  induction l with
  | nil => exact List.Perm.refl _
  | cons x xs ih =>
    show (if x.start_position ≤ e.start_position then e :: x :: xs
          else x :: insertDesc e xs).Perm (e :: x :: xs)
    by_cases h : x.start_position ≤ e.start_position
    · rw [if_pos h]
    · rw [if_neg h]
      exact (ih.cons x).trans (List.Perm.swap e x xs)

lemma sortByStartDesc_perm (es : List PIIEntity) :
    (sortByStartDesc es).Perm es := by
  induction es with
  | nil => exact List.Perm.refl _
  | cons e es ih => exact (insertDesc_perm e _).trans (ih.cons e)

lemma insertDesc_sorted (e : PIIEntity) (l : List PIIEntity)
    (h : l.Pairwise StartGE) : (insertDesc e l).Pairwise StartGE := by
  induction l with
  | nil => simp [insertDesc]
  | cons x xs ih =>
    rw [List.pairwise_cons] at h
    show (if x.start_position ≤ e.start_position then e :: x :: xs
          else x :: insertDesc e xs).Pairwise StartGE
    by_cases hc : x.start_position ≤ e.start_position
    · rw [if_pos hc]
      refine List.Pairwise.cons ?_ (List.Pairwise.cons h.1 h.2)
      intro b hb
      rcases List.mem_cons.mp hb with rfl | hb'
      · exact hc
      · exact le_trans (h.1 b hb') hc
    · rw [if_neg hc]
      refine List.Pairwise.cons ?_ (ih h.2)
      intro b hb
      have hb2 : b ∈ e :: xs := (insertDesc_perm e xs).mem_iff.mp hb
      rcases List.mem_cons.mp hb2 with rfl | hb'
      · exact le_of_lt (lt_of_not_le hc)
      · exact h.1 b hb'

lemma sortByStartDesc_sorted (es : List PIIEntity) :
    (sortByStartDesc es).Pairwise StartGE := by
  induction es with
  | nil => exact List.Pairwise.nil
  | cons e es ih => exact insertDesc_sorted e _ ih

lemma redactOne_eq (txt : List Char) (e : PIIEntity) (h : ValidFor txt e) :
    redactOne txt e =
      txt.take e.start_position.toNat ++ redactionTag e.pii_type ++
        txt.drop e.end_position.toNat := by
  obtain ⟨h0, h1, h2⟩ := h
  unfold redactOne pyTake pyDrop pyBound
  rw [if_neg (by omega), if_neg (by omega)]

lemma length_redactOne (txt : List Char) (e : PIIEntity) (h : ValidFor txt e) :
    (redactOne txt e).length =
      e.start_position.toNat + (redactionTag e.pii_type).length +
        (txt.length - e.end_position.toNat) := by
  rw [redactOne_eq txt e h]
  obtain ⟨h0, h1, h2⟩ := h
  simp only [List.length_append, List.length_take, List.length_drop]
  omega

lemma take_redactOne (txt : List Char) (e : PIIEntity) (h : ValidFor txt e)
    (m : Nat) (hm : m ≤ e.start_position.toNat) :
    (redactOne txt e).take m = txt.take m := by
  rw [redactOne_eq txt e h]
  obtain ⟨h0, h1, h2⟩ := h
  rw [List.append_assoc, List.take_append_eq_append_take]
  have hlen : (txt.take e.start_position.toNat).length =
      e.start_position.toNat := by
    rw [List.length_take]
    omega
  have hz : m - (txt.take e.start_position.toNat).length = 0 := by
    rw [hlen]
    omega
  rw [hz, List.take_zero, List.append_nil, List.take_take]
  congr 1
  omega

lemma chainOK_le (ub : Nat) (A : List PIIEntity) :
    ∀ pos, ChainOK ub pos A → pos ≤ ub := by
  induction A with
  | nil => intro pos h; exact h
  | cons a A ih =>
    intro pos h
    obtain ⟨h1, h2, h3, h4⟩ := h
    have h5 := ih _ h4
    omega

lemma chainOK_append (e : PIIEntity) (ub : Nat) (A : List PIIEntity)
    (he0 : 0 ≤ e.start_position) (he1 : e.start_position < e.end_position)
    (he2 : e.end_position.toNat ≤ ub) :
    ∀ pos, ChainOK e.start_position.toNat pos A →
      ChainOK ub pos (A ++ [e]) := by
  induction A with
  | nil =>
    intro pos h
    exact ⟨h, he0, he1, he2⟩
  | cons a A ih =>
    intro pos h
    obtain ⟨h1, h2, h3, h4⟩ := h
    exact ⟨h1, h2, h3, ih _ h4⟩

lemma spliceShift (txt : List Char) (e : PIIEntity) (hv : ValidFor txt e) :
    ∀ (A : List PIIEntity) (pos : Nat),
      ChainOK e.start_position.toNat pos A →
      spliceSpec (redactOne txt e) pos A = spliceSpec txt pos (A ++ [e]) := by
  intro A
  induction A with
  | nil =>
    intro pos h
    have hps : pos ≤ e.start_position.toNat := h
    obtain ⟨h0, h1, h2⟩ := hv
    show (redactOne txt e).drop pos = spliceSpec txt pos [e]
    rw [redactOne_eq txt e ⟨h0, h1, h2⟩]
    show _ = (txt.drop pos).take (e.start_position.toNat - pos) ++
      redactionTag e.pii_type ++ txt.drop e.end_position.toNat
    rw [List.append_assoc, List.drop_append_eq_append_drop]
    have hlen : (txt.take e.start_position.toNat).length =
        e.start_position.toNat := by
      rw [List.length_take]
      omega
    have hz : pos - (txt.take e.start_position.toNat).length = 0 := by
      rw [hlen]
      omega
    rw [hz, List.drop_zero, List.drop_take, List.append_assoc]
  | cons a A ih =>
    intro pos h
    obtain ⟨hpa, ha0, ha1, hrest⟩ := h
    have haE : a.end_position.toNat ≤ e.start_position.toNat :=
      chainOK_le _ _ _ hrest
    show ((redactOne txt e).drop pos).take (a.start_position.toNat - pos) ++
        redactionTag a.pii_type ++ spliceSpec (redactOne txt e) a.end_position.toNat A =
      (txt.drop pos).take (a.start_position.toNat - pos) ++
        redactionTag a.pii_type ++ spliceSpec txt a.end_position.toNat (A ++ [e])
    have hX : ((redactOne txt e).drop pos).take (a.start_position.toNat - pos) =
        (txt.drop pos).take (a.start_position.toNat - pos) := by
      have hT : (redactOne txt e).take a.start_position.toNat =
          txt.take a.start_position.toNat :=
        take_redactOne txt e hv _ (by omega)
      rw [← List.drop_take, ← List.drop_take, hT]
    rw [hX, ih _ hrest]

lemma chainOK_of_desc :
    ∀ (R : List PIIEntity) (ub : Nat),
      R.Pairwise (fun a b => b.end_position ≤ a.start_position) →
      (∀ a ∈ R, 0 ≤ a.start_position ∧ a.start_position < a.end_position ∧
        a.end_position.toNat ≤ ub) →
      ChainOK ub 0 R.reverse := by
  intro R
  induction R with
  | nil =>
    intro ub _ _
    show (0:Nat) ≤ ub
    omega
  | cons r R ih =>
    intro ub hp hb
    rw [List.pairwise_cons] at hp
    rw [List.reverse_cons]
    obtain ⟨hr0, hr1, hr2⟩ := hb r (List.mem_cons_self r R)
    refine chainOK_append r ub R.reverse hr0 hr1 hr2 0 ?_
    refine ih r.start_position.toNat hp.2 ?_
    intro a ha
    obtain ⟨ha0, ha1, _⟩ := hb a (List.mem_cons_of_mem r ha)
    have := hp.1 a ha
    refine ⟨ha0, ha1, ?_⟩
    omega

lemma foldl_redactOne_eq_spliceSpec :
    ∀ (L : List PIIEntity) (txt : List Char),
      L.Pairwise StartGE → (∀ a ∈ L, ValidFor txt a) →
      L.Pairwise SpanDisjoint →
      L.foldl redactOne txt = spliceSpec txt 0 L.reverse := by
  intro L
  induction L with
  | nil =>
    intro txt _ _ _
    show txt = txt.drop 0
    rw [List.drop_zero]
  | cons e R ih =>
    intro txt hsort hval hdisj
    rw [List.pairwise_cons] at hsort hdisj
    have hve : ValidFor txt e := hval e (List.mem_cons_self e R)
    have hrel : ∀ r ∈ R, r.end_position ≤ e.start_position := by
      intro r hr
      rcases hdisj.1 r hr with hcase | hcase
      · exfalso
        have h1 : r.start_position ≤ e.start_position := hsort.1 r hr
        obtain ⟨e0, e1, e2⟩ := hve
        omega
      · exact hcase
    have hval' : ∀ r ∈ R, ValidFor (redactOne txt e) r := by
      intro r hr
      obtain ⟨r0, r1, r2⟩ := hval r (List.mem_cons_of_mem e hr)
      refine ⟨r0, r1, ?_⟩
      have h3 := hrel r hr
      have h4 := length_redactOne txt e hve
      obtain ⟨e0, e1, e2⟩ := hve
      omega
    show R.foldl redactOne (redactOne txt e) = spliceSpec txt 0 (e :: R).reverse
    rw [List.reverse_cons, ih (redactOne txt e) hsort.2 hval' hdisj.2]
    refine spliceShift txt e hve _ 0 ?_
    refine chainOK_of_desc R e.start_position.toNat ?_ ?_
    · refine List.Pairwise.imp_of_mem ?_ ((hsort.2.and hdisj.2))
      intro a b ha hb hab
      obtain ⟨a0, a1, a2⟩ := hval a (List.mem_cons_of_mem e ha)
      rcases hab.2 with hcase | hcase
      · exfalso
        have : b.start_position ≤ a.start_position := hab.1
        omega
      · exact hcase
    · intro a ha
      obtain ⟨a0, a1, a2⟩ := hval a (List.mem_cons_of_mem e ha)
      have h3 := hrel a ha
      obtain ⟨e0, e1, e2⟩ := hve
      exact ⟨a0, a1, by omega⟩

/-- C2: the redactor folds over the entities sorted by start offset in
descending order, splicing a bracketed category placeholder over each span;
for pairwise non-overlapping entities with offsets valid for the text, the
result is exactly the characters of the original text outside every span,
in order, interleaved with the placeholders in ascending span order (the
sorted list is a permutation of the input). -/
theorem create_redacted_text_correct (original_text : List Char)
    (es : List PIIEntity)
    (hval : ∀ e ∈ es, ValidFor original_text e)
    (hdisj : es.Pairwise SpanDisjoint) :
    create_redacted_text original_text es =
      spliceSpec original_text 0 (sortByStartDesc es).reverse ∧
    (sortByStartDesc es).Perm es := by
  have hperm := sortByStartDesc_perm es
  have hsort := sortByStartDesc_sorted es
  have hval' : ∀ e ∈ sortByStartDesc es, ValidFor original_text e :=
    fun e he => hval e (hperm.mem_iff.mp he)
  have hdisj' : (sortByStartDesc es).Pairwise SpanDisjoint := by
    refine (hperm.pairwise_iff ?_).mpr hdisj
    intro a b hab
    exact Or.symm hab
  exact ⟨foldl_redactOne_eq_spliceSpec _ _ hsort hval' hdisj', hperm⟩

/-- Witness for C2 on the two-entity example text of the spec. -/
theorem create_redacted_text_correct_w :
    create_redacted_text ("A 123-45-6789 B 555-123-4567 C".toList)
        [⟨"123-45-6789".toList, .SSN, 4/5, 2, 13, none, none⟩,
         ⟨"555-123-4567".toList, .PHONE, 4/5, 16, 28, none, none⟩] =
      spliceSpec ("A 123-45-6789 B 555-123-4567 C".toList) 0
        (sortByStartDesc
          [⟨"123-45-6789".toList, .SSN, 4/5, 2, 13, none, none⟩,
           ⟨"555-123-4567".toList, .PHONE, 4/5, 16, 28, none, none⟩]).reverse ∧
    (sortByStartDesc
        [⟨"123-45-6789".toList, .SSN, 4/5, 2, 13, none, none⟩,
         ⟨"555-123-4567".toList, .PHONE, 4/5, 16, 28, none, none⟩]).Perm
      [⟨"123-45-6789".toList, .SSN, 4/5, 2, 13, none, none⟩,
       ⟨"555-123-4567".toList, .PHONE, 4/5, 16, 28, none, none⟩] :=
  create_redacted_text_correct _ _ (by decide) (by decide)

lemma except_toOption_eq_some {ε α : Type} (x : Except ε α) (a : α)
    (h : x.toOption = some a) : x = .ok a := by
  cases x with
  | error e => simp [Except.toOption] at h
  | ok b =>
    simp [Except.toOption] at h
    rw [h]

lemma entityOfItem_of_shape (item : JsonValue)
    (p ts : String) (c : ℚ) (sp ep : Int)
    (h : itemShape? item = some (p, ts, c, sp, ep)) :
    entityOfItem item = .ok (specEntityOfShape (p, ts, c, sp, ep)) := by
  cases item with
  | null => simp [itemShape?] at h
  | bool b => simp [itemShape?] at h
  | num q => simp [itemShape?] at h
  | str s => simp [itemShape?] at h
  | arr elems => simp [itemShape?] at h
  | obj fields =>
    simp only [itemShape?] at h
    split at h
    case _ p' ts' c' sp' ep' hpt htx hcf hsp hep =>
      rw [Option.some_inj, Prod.mk.injEq, Prod.mk.injEq, Prod.mk.injEq,
        Prod.mk.injEq] at h
      obtain ⟨rfl, rfl, rfl, rfl, rfl⟩ := h
      have htx' := except_toOption_eq_some _ _ htx
      have hcf' := except_toOption_eq_some _ _ hcf
      have hsp' := except_toOption_eq_some _ _ hsp
      have hep' := except_toOption_eq_some _ _ hep
      cases hk : piiTypeOfValue? p' with
      | none => simp [entityOfItem, hpt, asEnumKey, hk, specEntityOfShape]
      | some t =>
        simp only [entityOfItem, hpt, asEnumKey, hk, specEntityOfShape,
          htx', hcf', hsp', hep', Option.map_some]
        rfl
    case _ =>
      exact absurd h (by simp)

lemma entityItemsGo_wellFormed (items : List JsonValue)
    (h : ∀ item ∈ items, (itemShape? item).isSome) :
    entityItemsGo items =
      .ok (items.filterMap (fun it => (itemShape? it).bind specEntityOfShape)) := by
  induction items with
  | nil => rfl
  | cons item rest ih =>
    have hhead := h item (List.mem_cons_self item rest)
    obtain ⟨x, hx⟩ := Option.isSome_iff_exists.mp hhead
    obtain ⟨p, ts, c, sp, ep⟩ := x
    have hconv := entityOfItem_of_shape item p ts c sp ep hx
    have htail := ih (fun it hit => h it (List.mem_cons_of_mem item hit))
    simp only [entityItemsGo, hconv, List.filterMap_cons, hx]
    cases hspec : specEntityOfShape (p, ts, c, sp, ep) with
    | none => simp [hspec, htail]
    | some ent => simp [hspec, htail, Except.map]

/-- C8: a well-formed JSON-array response never raises; items whose
`pii_type` string is outside the known category set are silently dropped
and every item with a known `pii_type` is converted into an entity, in
order. -/
theorem ai_unknown_type_dropped (items : List JsonValue)
    (h : ∀ item ∈ items, (itemShape? item).isSome) :
    entitiesOfJson (.arr items) =
      .ok (items.filterMap (fun it => (itemShape? it).bind specEntityOfShape)) :=
  entityItemsGo_wellFormed items h

/-- Witness for C8: a response containing an `"UNKNOWN_TYPE"` item followed
by a valid email item. -/
theorem ai_unknown_type_dropped_w :
    (∀ item ∈
        [JsonValue.obj [("text", .str "x"), ("pii_type", .str "UNKNOWN_TYPE"),
           ("confidence", .num 1), ("start_position", .num 0),
           ("end_position", .num 1)],
         JsonValue.obj [("text", .str "jane@example.com"),
           ("pii_type", .str "Email Address"), ("confidence", .num 1),
           ("start_position", .num 14), ("end_position", .num 30)]],
      (itemShape? item).isSome) ∧
    entitiesOfJson (.arr
        [JsonValue.obj [("text", .str "x"), ("pii_type", .str "UNKNOWN_TYPE"),
           ("confidence", .num 1), ("start_position", .num 0),
           ("end_position", .num 1)],
         JsonValue.obj [("text", .str "jane@example.com"),
           ("pii_type", .str "Email Address"), ("confidence", .num 1),
           ("start_position", .num 14), ("end_position", .num 30)]]) =
      .ok ([JsonValue.obj [("text", .str "x"), ("pii_type", .str "UNKNOWN_TYPE"),
           ("confidence", .num 1), ("start_position", .num 0),
           ("end_position", .num 1)],
         JsonValue.obj [("text", .str "jane@example.com"),
           ("pii_type", .str "Email Address"), ("confidence", .num 1),
           ("start_position", .num 14), ("end_position", .num 30)]].filterMap
        (fun it => (itemShape? it).bind specEntityOfShape)) :=
  ⟨by decide, ai_unknown_type_dropped _ (by decide)⟩

/-- C7: when `json.loads` cannot parse the fence-stripped response body,
the extractor returns the empty entity sequence instead of raising. -/
theorem ai_parse_failure_returns_empty
    (jsonLoads : String → Option JsonValue) (ai_content : String)
    (h : jsonLoads (stripFences ai_content) = none) :
    detect_pii_from_content jsonLoads ai_content = .ok [] := by
  unfold detect_pii_from_content
  rw [h]

/-- Witness for C7 with an always-failing parser. -/
theorem ai_parse_failure_returns_empty_w :
    (fun _ : String => (none : Option JsonValue))
        (stripFences "not valid json") = none ∧
    detect_pii_from_content (fun _ => none) "not valid json" = .ok [] :=
  ⟨rfl, ai_parse_failure_returns_empty _ _ rfl⟩

/-- C6 counterexample: the AI extractor copies `start_position` and
`end_position` verbatim from the parsed response, so a parsed item with
`start_position = 50` and `end_position = 40` yields an entity violating
`start < end` (the claimed invariant fails for AI-built entities). -/
theorem ai_offsets_unchecked_cex :
    detect_pii_from_content
        (fun _ => some (JsonValue.arr
          [JsonValue.obj [("text", .str "x"), ("pii_type", .str "Email Address"),
             ("confidence", .num 1), ("start_position", .num 50),
             ("end_position", .num 40)]]))
        "response" =
      .ok [⟨"x".toList, .EMAIL, 1, 50, 40, none, none⟩] ∧
    ¬((⟨"x".toList, .EMAIL, 1, 50, 40, none, none⟩ : PIIEntity).start_position <
      (⟨"x".toList, .EMAIL, 1, 50, 40, none, none⟩ : PIIEntity).end_position) :=
  ⟨rfl, by decide⟩

lemma matchesGo_bound (s : List Char) (star1 : Regex → Nat → List Nat)
    (hstar : ∀ r i j, i ≤ s.length → j ∈ star1 r i → i ≤ j ∧ j ≤ s.length) :
    ∀ r i j, i ≤ s.length → j ∈ matchesGo s star1 r i →
      i ≤ j ∧ j ≤ s.length := by
  intro r
  induction r with
  | eps =>
    intro i j hi hj
    simp only [matchesGo, List.mem_singleton] at hj
    omega
  | cls p =>
    intro i j hi hj
    simp only [matchesGo] at hj
    rcases hg : s.get? i with _ | c
    · rw [hg] at hj
      simp at hj
    · rw [hg] at hj
      by_cases hp : p c
      · simp only [hp, if_true] at hj
        rw [List.mem_singleton] at hj
        have hil : i < s.length := by
          by_contra hc
          rw [List.get?_eq_none.mpr (by omega)] at hg
          cases hg
        omega
      · simp [hp] at hj
  | wordB =>
    intro i j hi hj
    simp only [matchesGo] at hj
    by_cases hw : wordBoundaryAt s i
    · rw [if_pos hw, List.mem_singleton] at hj
      omega
    · rw [if_neg hw] at hj
      simp at hj
  | cat a b iha ihb =>
    intro i j hi hj
    simp only [matchesGo, List.mem_flatMap] at hj
    obtain ⟨j1, hj1, hj2⟩ := hj
    have h1 := iha i j1 hi hj1
    have h2 := ihb j1 j h1.2 hj2
    omega
  | alt a b iha ihb =>
    intro i j hi hj
    simp only [matchesGo, List.mem_append] at hj
    rcases hj with hj | hj
    · exact iha i j hi hj
    · exact ihb i j hi hj
  | star r ihr =>
    intro i j hi hj
    exact hstar r i j hi hj

lemma starMatches_bound (s : List Char) :
    ∀ fuel r i j, i ≤ s.length → j ∈ starMatches s fuel r i →
      i ≤ j ∧ j ≤ s.length := by
  intro fuel
  induction fuel with
  | zero =>
    intro r i j hi hj
    simp [starMatches] at hj
  | succ fuel ih =>
    intro r i j hi hj
    simp only [starMatches, List.mem_append, List.mem_flatMap,
      List.mem_filter, List.mem_singleton] at hj
    rcases hj with ⟨j1, ⟨hj1m, _⟩, hj2⟩ | rfl
    · have h1 := matchesGo_bound s _
        (fun r2 i2 j2 a b => ih r2 i2 j2 a b) r i j1 hi hj1m
      have h2 := ih r j1 j h1.2 hj2
      omega
    · omega

lemma matches1_bound (s : List Char) (fuel : Nat) (r : Regex) (i j : Nat)
    (hi : i ≤ s.length) (hj : j ∈ matches1 s fuel r i) :
    i ≤ j ∧ j ≤ s.length :=
  matchesGo_bound s _ (fun r2 i2 j2 a b => starMatches_bound s fuel r2 i2 j2 a b)
    r i j hi hj

lemma matchesGo_consumes (s : List Char) (star1 : Regex → Nat → List Nat)
    (hstar : ∀ r i j, i ≤ s.length → j ∈ star1 r i → i ≤ j ∧ j ≤ s.length) :
    ∀ r, consumes r = true → ∀ i j, i ≤ s.length →
      j ∈ matchesGo s star1 r i → i < j := by
  intro r
  induction r with
  | eps => intro hc; simp [consumes] at hc
  | cls p =>
    intro _ i j hi hj
    simp only [matchesGo] at hj
    rcases hg : s.get? i with _ | c
    · rw [hg] at hj
      simp at hj
    · rw [hg] at hj
      by_cases hp : p c
      · simp only [hp, if_true] at hj
        rw [List.mem_singleton] at hj
        omega
      · simp [hp] at hj
  | wordB => intro hc; simp [consumes] at hc
  | star r ihr => intro hc; simp [consumes] at hc
  | cat a b iha ihb =>
    intro hc i j hi hj
    simp only [matchesGo, List.mem_flatMap] at hj
    obtain ⟨j1, hj1, hj2⟩ := hj
    have hb1 := matchesGo_bound s star1 hstar a i j1 hi hj1
    have hb2 := matchesGo_bound s star1 hstar b j1 j hb1.2 hj2
    simp only [consumes, Bool.or_eq_true] at hc
    rcases hc with hc | hc
    · have := iha hc i j1 hi hj1
      omega
    · have := ihb hc j1 j hb1.2 hj2
      omega
  | alt a b iha ihb =>
    intro hc i j hi hj
    simp only [consumes, Bool.and_eq_true] at hc
    simp only [matchesGo, List.mem_append] at hj
    rcases hj with hj | hj
    · exact iha hc.1 i j hi hj
    · exact ihb hc.2 i j hi hj

lemma matches1_consumes (s : List Char) (fuel : Nat) (r : Regex) (i j : Nat)
    (hc : consumes r = true) (hi : i ≤ s.length)
    (hj : j ∈ matches1 s fuel r i) : i < j :=
  matchesGo_consumes s _
    (fun r2 i2 j2 a b => starMatches_bound s fuel r2 i2 j2 a b) r hc i j hi hj

lemma findIterGo_mem (s : List Char) (r : Regex) (hc : consumes r = true) :
    ∀ fuel pos pr, pr ∈ findIterGo s r fuel pos →
      pr.1 < pr.2 ∧ pr.2 ≤ s.length := by
  intro fuel
  induction fuel with
  | zero =>
    intro pos pr h
    simp [findIterGo] at h
  | succ fuel ih =>
    intro pos pr h
    simp only [findIterGo] at h
    by_cases hg : s.length < pos
    · rw [if_pos hg] at h
      simp at h
    · rw [if_neg hg] at h
      have hpos : pos ≤ s.length := by omega
      rcases hm : matchEnd s r pos with _ | j
      · rw [hm] at h
        exact ih _ _ h
      · rw [hm] at h
        rcases List.mem_cons.mp h with rfl | h2
        · have hjm : j ∈ matches1 s (s.length + 1) r pos := by
            refine List.mem_of_mem_head? ?_
            unfold matchEnd at hm
            simp [hm]
          have h1 := matches1_bound s _ r pos j hpos hjm
          have h2 := matches1_consumes s _ r pos j hc hpos hjm
          exact ⟨h2, h1.2⟩
        · exact ih _ _ h2

lemma patternFor_offsets (text : List Char) (t : PIIType) (r : Regex)
    (hc : consumes r = true) (e : PIIEntity) (h : e ∈ patternFor text t r) :
    0 ≤ e.start_position ∧ e.start_position < e.end_position ∧
      e.end_position ≤ (text.length : Int) := by
  simp only [patternFor, List.mem_map] at h
  obtain ⟨m, hm, rfl⟩ := h
  simp only [findIter] at hm
  have hb := findIterGo_mem text r hc _ _ m hm
  refine ⟨?_, ?_, ?_⟩
  · show (0:Int) ≤ (m.1 : Int)
    omega
  · show (m.1 : Int) < (m.2 : Int)
    omega
  · show (m.2 : Int) ≤ (text.length : Int)
    omega

/-- C6 (amended): every entity produced by the pattern-based extractor has
offsets forming a valid half-open span of the source text,
`0 ≤ start < end ≤ len`; the AI extractor gives no such guarantee, as its
offsets are copied verbatim from the parsed response. -/
theorem apply_regex_patterns_offsets (text : List Char) (e : PIIEntity)
    (h : e ∈ apply_regex_patterns text) :
    0 ≤ e.start_position ∧ e.start_position < e.end_position ∧
      e.end_position ≤ (text.length : Int) := by
  simp only [apply_regex_patterns, List.mem_append] at h
  rcases h with (((h | h) | h) | h) | h
  · exact patternFor_offsets _ _ _ (by rfl) e h
  · exact patternFor_offsets _ _ _ (by rfl) e h
  · exact patternFor_offsets _ _ _ (by rfl) e h
  · exact patternFor_offsets _ _ _ (by rfl) e h
  · exact patternFor_offsets _ _ _ (by rfl) e h

/-- Witness for C6 (amended) at a concrete phone-number text. -/
theorem apply_regex_patterns_offsets_w :
    (⟨"555-123-4567".toList, .PHONE, 4/5, 0, 12, none, none⟩ : PIIEntity) ∈
      apply_regex_patterns ("555-123-4567".toList) ∧
    (0:Int) ≤ (⟨"555-123-4567".toList, .PHONE, 4/5, 0, 12, none,
        none⟩ : PIIEntity).start_position ∧
    (⟨"555-123-4567".toList, .PHONE, 4/5, 0, 12, none,
        none⟩ : PIIEntity).start_position <
      (⟨"555-123-4567".toList, .PHONE, 4/5, 0, 12, none,
        none⟩ : PIIEntity).end_position ∧
    (⟨"555-123-4567".toList, .PHONE, 4/5, 0, 12, none,
        none⟩ : PIIEntity).end_position ≤
      (("555-123-4567".toList).length : Int) := by
  have hmem : (⟨"555-123-4567".toList, .PHONE, 4/5, 0, 12, none,
      none⟩ : PIIEntity) ∈ apply_regex_patterns ("555-123-4567".toList) := by
    rw [show apply_regex_patterns ("555-123-4567".toList) =
      [⟨"555-123-4567".toList, .PHONE, 4/5, 0, 12, none, none⟩] from rfl]
    exact List.mem_cons_self _ _
  have hgoal := apply_regex_patterns_offsets ("555-123-4567".toList) _ hmem
  exact ⟨hmem, hgoal.1, hgoal.2.1, hgoal.2.2⟩

/-- C9: on the sample contact text the pattern extractor returns exactly
one email entity and one phone entity, each with confidence 0.8, and no
entities of any other category. -/
theorem pattern_extractor_example :
    apply_regex_patterns
        ("Contact me at jane@example.com or 555-123-4567.".toList) =
      [⟨"jane@example.com".toList, .EMAIL, 4/5, 14, 30, none, none⟩,
       ⟨"555-123-4567".toList, .PHONE, 4/5, 34, 46, none, none⟩] := rfl

end PiiRedaction
